import Mathlib

/-!
Verification of the Ultimate Tic-Tac-Toe rule engine (src/src/App.js).

The game logic of the repository is shallowly embedded below:
cells and board winners are `Mark = Option Player` (JS `null` is `none`,
player strings '0'/'1' are `P0`/`P1`); a local board is the record
`{cells, complete, winner}` built in `setup`; the global state carries the
nine boards and `nextBoardId` (the `G` object) together with the framework
context's `currentPlayer` and game-over status (`outcome`).  Indices are
`Fin 9`, matching the 9-element JS arrays.
-/

inductive Player : Type
  | P0
  | P1
  deriving DecidableEq, Repr

/-- The other player: boardgame.io alternates between players '0' and '1'. -/
def otherPlayer : Player → Player
  | Player.P0 => Player.P1
  | Player.P1 => Player.P0

/-- A cell or winner value: JS `null` is `none`. -/
abbrev Mark : Type := Option Player

/-- Game outcome: `ongoing` is boardgame.io's `ctx.gameover === undefined`;
`won p` is `{winner: p}`; `draw` is `{draw: true}`. -/
inductive Outcome : Type
  | ongoing
  | won (p : Player)
  | draw
  deriving DecidableEq, Repr

/-- A local 3×3 board, as built by `setup`:
`{cells: Array(9).fill(null), complete: false, winner: null}`. -/
structure LocalBoard : Type where
  cells : Fin 9 → Mark
  complete : Bool
  winner : Mark

instance : DecidableEq LocalBoard := fun a b =>
  decidable_of_iff (a.cells = b.cells ∧ a.complete = b.complete ∧ a.winner = b.winner)
    (by cases a; cases b; simp)

/-- The global game state: the `G` object (`boards`, `nextBoardId`) together
with the framework context (`currentPlayer`, gameover status as `outcome`).
`nextBoardId = none` is the JS `null`, meaning "any board". -/
structure GlobalState : Type where
  boards : Fin 9 → LocalBoard
  nextBoardId : Option (Fin 9)
  currentPlayer : Player
  outcome : Outcome

instance : DecidableEq GlobalState := fun a b =>
  decidable_of_iff
    (a.boards = b.boards ∧ a.nextBoardId = b.nextBoardId ∧
      a.currentPlayer = b.currentPlayer ∧ a.outcome = b.outcome)
    (by cases a; cases b; simp)

/-- `isVictory` (App.js lines 10–21): the eight explicit line checks,
each `cells[i] !== null && cells[i] === cells[j] && cells[i] === cells[k]`. -/
def isVictory (cells : Fin 9 → Mark) : Bool :=
  (decide (cells 0 ≠ none) && decide (cells 0 = cells 1) && decide (cells 0 = cells 2)) ||
  (decide (cells 3 ≠ none) && decide (cells 3 = cells 4) && decide (cells 3 = cells 5)) ||
  (decide (cells 6 ≠ none) && decide (cells 6 = cells 7) && decide (cells 6 = cells 8)) ||
  (decide (cells 0 ≠ none) && decide (cells 0 = cells 3) && decide (cells 0 = cells 6)) ||
  (decide (cells 1 ≠ none) && decide (cells 1 = cells 4) && decide (cells 1 = cells 7)) ||
  (decide (cells 2 ≠ none) && decide (cells 2 = cells 5) && decide (cells 2 = cells 8)) ||
  (decide (cells 0 ≠ none) && decide (cells 0 = cells 4) && decide (cells 0 = cells 8)) ||
  (decide (cells 2 ≠ none) && decide (cells 2 = cells 4) && decide (cells 2 = cells 6))

/-- `isComplete` (App.js line 24): `cells.filter(c => c === null).length === 0`,
i.e. no cell is null. -/
def isComplete (cells : Fin 9 → Mark) : Bool :=
  decide (∀ i : Fin 9, cells i ≠ none)

/-- `allBoardsComplete` (App.js lines 25–26):
`boards.filter(b => !b.complete).length === 0`. -/
def allBoardsComplete (boards : Fin 9 → LocalBoard) : Bool :=
  decide (∀ i : Fin 9, (boards i).complete = true)

/-- `boardsToCells` (App.js line 29): `boards.map(b => b.winner)`. -/
def boardsToCells (boards : Fin 9 → LocalBoard) : Fin 9 → Mark :=
  fun i => (boards i).winner

/-- `isValidMove` (App.js lines 31–34):
`(boardId === G.nextBoardId || G.nextBoardId === null) &&
!G.boards[boardId].complete && G.boards[boardId].cells[cellId] == null`. -/
def isValidMove (G : GlobalState) (boardId cellId : Fin 9) : Bool :=
  (decide (G.nextBoardId = some boardId) || decide (G.nextBoardId = none)) &&
  !(G.boards boardId).complete &&
  decide ((G.boards boardId).cells cellId = none)

/-- The initial state built by `setup` (App.js lines 37–46), together with the
framework's initial context: player '0' moves first, no gameover. -/
def initState : GlobalState where
  boards := fun _ => { cells := fun _ => none, complete := false, winner := none }
  nextBoardId := none
  currentPlayer := Player.P0
  outcome := Outcome.ongoing

/-- The local-board update in `markCell` (App.js lines 54–61): place the
current player's mark, then set `complete`/`winner` if the board now has a
winning line, else set only `complete` if the board is full, else leave the
flags alone. -/
def updatedBoard (b : LocalBoard) (cellId : Fin 9) (p : Player) : LocalBoard :=
  let cells' := Function.update b.cells cellId (some p)
  if isVictory cells' then { cells := cells', complete := true, winner := some p }
  else if isComplete cells' then { cells := cells', complete := true, winner := b.winner }
  else { b with cells := cells' }

/-- `endGameIf` (App.js lines 70–78), evaluated on the post-move boards with
`ctx.currentPlayer` still the player who just moved: a meta-grid winning line
gives `{winner: currentPlayer}`; otherwise a full meta grid or all boards
complete gives `{draw: true}`; otherwise the game continues. -/
def checkGlobalOutcome (boards : Fin 9 → LocalBoard) (current : Player) : Outcome :=
  let cells := boardsToCells boards
  if isVictory cells then Outcome.won current
  else if isComplete cells || allBoardsComplete boards then Outcome.draw
  else Outcome.ongoing

/-- The successful branch of `markCell` (App.js lines 54–65) followed by the
framework flow: mutate the target board, recompute `nextBoardId` from the
post-move boards (line 63 reads `G.boards[cellId]` after the mutation), run
`endGameIf`, and pass the turn via `endTurn` if the game did not end. -/
def markCellResult (s : GlobalState) (boardId cellId : Fin 9) : GlobalState :=
  let boards' := Function.update s.boards boardId
    (updatedBoard (s.boards boardId) cellId s.currentPlayer)
  let outcome' := checkGlobalOutcome boards' s.currentPlayer
  { boards := boards'
    nextBoardId := if (boards' cellId).complete then none else some cellId
    currentPlayer :=
      if outcome' = Outcome.ongoing then otherPlayer s.currentPlayer else s.currentPlayer
    outcome := outcome' }

/-- The full move pipeline: `markCell` returns `INVALID_MOVE` (App.js lines
50–52) when `isValidMove` fails, modelled as `none`.
Modelled from the spec: the boardgame.io framework (not part of this
repository's sources) rejects any move once `ctx.gameover` is set; §4.2 and §7
of the spec state that `applyMove` fails whenever `outcome != ongoing`. -/
def applyMove (s : GlobalState) (boardId cellId : Fin 9) : Option GlobalState :=
  if s.outcome = Outcome.ongoing then
    if isValidMove s boardId cellId then some (markCellResult s boardId cellId)
    else none
  else none

/-- `enumerate` (App.js lines 192–202): the nested loops over boards 0–8 and
cells 0–8 pushing every pair that passes `isValidMove`, in loop order. -/
def enumerate (s : GlobalState) : List (Fin 9 × Fin 9) :=
  (List.finRange 9).flatMap fun boardId =>
    (List.finRange 9).filterMap fun cellId =>
      if isValidMove s boardId cellId then some (boardId, cellId) else none

/-- Modelled from the spec (§4.3): the eight standard index triples. -/
def specLines : List (Fin 9 × Fin 9 × Fin 9) :=
  [(0, 1, 2), (3, 4, 5), (6, 7, 8), (0, 3, 6), (1, 4, 7), (2, 5, 8), (0, 4, 8), (2, 4, 6)]

/-- Modelled from the spec (§4.3): `hasWinningLine` — some triple among the
eight standard lines holds the same non-EMPTY mark at all three indices. -/
def hasWinningLine (cells : Fin 9 → Mark) : Prop :=
  ∃ t ∈ specLines, cells t.1 ≠ none ∧ cells t.1 = cells t.2.1 ∧ cells t.1 = cells t.2.2

instance (cells : Fin 9 → Mark) : Decidable (hasWinningLine cells) := by
  unfold hasWinningLine
  infer_instance

/-- States reachable from the initial state by legal moves. -/
inductive Reachable : GlobalState → Prop
  | init : Reachable initState
  | step {s s' : GlobalState} {b c : Fin 9} :
      Reachable s → applyMove s b c = some s' → Reachable s'

/-! ### Helper lemmas -/

lemma isValidMove_iff {s : GlobalState} {b c : Fin 9} :
    isValidMove s b c = true ↔
      (s.nextBoardId = some b ∨ s.nextBoardId = none) ∧
      (s.boards b).complete = false ∧ (s.boards b).cells c = none := by
  unfold isValidMove
  simp [Bool.and_eq_true, Bool.or_eq_true, Bool.not_eq_true', and_assoc]

lemma applyMove_eq_some {s s' : GlobalState} {b c : Fin 9} :
    applyMove s b c = some s' ↔
      s.outcome = Outcome.ongoing ∧ isValidMove s b c = true ∧
        s' = markCellResult s b c := by
  unfold applyMove
  by_cases h1 : s.outcome = Outcome.ongoing
  · by_cases h2 : isValidMove s b c = true
    · simp [h1, h2, eq_comm]
    · simp [h1, h2]
  · simp [h1]

lemma markCellResult_boards (s : GlobalState) (b c : Fin 9) :
    (markCellResult s b c).boards =
      Function.update s.boards b (updatedBoard (s.boards b) c s.currentPlayer) := rfl

lemma markCellResult_outcome (s : GlobalState) (b c : Fin 9) :
    (markCellResult s b c).outcome =
      checkGlobalOutcome (markCellResult s b c).boards s.currentPlayer := rfl

lemma markCellResult_nextBoardId (s : GlobalState) (b c : Fin 9) :
    (markCellResult s b c).nextBoardId =
      if ((markCellResult s b c).boards c).complete then none else some c := rfl

lemma markCellResult_currentPlayer (s : GlobalState) (b c : Fin 9) :
    (markCellResult s b c).currentPlayer =
      if (markCellResult s b c).outcome = Outcome.ongoing then otherPlayer s.currentPlayer
      else s.currentPlayer := rfl

lemma isVictory_iff (cells : Fin 9 → Mark) :
    isVictory cells = true ↔ hasWinningLine cells := by
  unfold hasWinningLine specLines
  simp only [List.exists_mem_cons_iff, List.not_mem_nil, false_and, exists_false,
    or_false]
  unfold isVictory
  simp only [Bool.or_eq_true, Bool.and_eq_true, decide_eq_true_eq, and_assoc, or_assoc]

/-- The invariant of the data model: a board with a winner is complete. -/
lemma reachable_winner_complete {s : GlobalState} (h : Reachable s) :
    ∀ i : Fin 9, (s.boards i).winner ≠ none → (s.boards i).complete = true := by
  induction h with
  | init =>
    intro i hi
    simp [initState] at hi
  | step hr happ ih =>
    intro i hi
    obtain ⟨ho, hv, hs'⟩ := applyMove_eq_some.mp happ
    subst hs'
    rw [markCellResult_boards] at hi ⊢
    rename_i s b c
    by_cases hib : i = b
    · subst hib
      rw [Function.update_same] at hi ⊢
      simp only [updatedBoard] at hi ⊢
      split_ifs at hi ⊢ with hvic hcomp
      · rfl
      · rfl
      · exfalso
        have hc : (s.boards i).complete = false := (isValidMove_iff.mp hv).2.1
        have ht : (s.boards i).complete = true := ih i hi
        rw [ht] at hc
        exact Bool.noConfusion hc
    · rw [Function.update_noteq hib] at hi ⊢
      exact ih i hi

lemma updatedBoard_cells (b : LocalBoard) (cellId : Fin 9) (p : Player) :
    (updatedBoard b cellId p).cells = Function.update b.cells cellId (some p) := by
  simp only [updatedBoard]
  split_ifs <;> rfl

/-- Under the winner-implies-complete invariant, the draw condition of
`endGameIf` collapses to `allBoardsComplete`. -/
lemma draw_cond_collapse {boards : Fin 9 → LocalBoard}
    (hinv : ∀ i : Fin 9, (boards i).winner ≠ none → (boards i).complete = true) :
    (isComplete (boardsToCells boards) || allBoardsComplete boards) =
      allBoardsComplete boards := by
  cases hmc : isComplete (boardsToCells boards) with
  | false => simp
  | true =>
    have hall : allBoardsComplete boards = true := by
      unfold isComplete boardsToCells at hmc
      unfold allBoardsComplete
      simp only [decide_eq_true_eq] at hmc ⊢
      intro i
      exact hinv i (hmc i)
    simp [hall]

/-! ### Concrete states used as witnesses -/

/-- A state identical to the initial one except that the game is already won:
used to separate `isValidMove` from the game-over check. -/
def sWon : GlobalState := { initState with outcome := Outcome.won Player.P0 }

/-- The state after the opening move `markCell(0, 0)` by player '0'. -/
def g1 : GlobalState := markCellResult initState 0 0

lemma applyMove_init_eq : applyMove initState 0 0 = some g1 := by decide

/-- A six-move opening in which player '1' wins local board 0 with the middle
row: (0,0), (0,3), (3,0), (0,4), (4,0), (0,5). -/
def g2 : GlobalState := markCellResult g1 0 3

def g3 : GlobalState := markCellResult g2 3 0

def g4 : GlobalState := markCellResult g3 0 4

def g5 : GlobalState := markCellResult g4 4 0

def g6 : GlobalState := markCellResult g5 0 5

lemma reach_g6 : Reachable g6 :=
  Reachable.step
    (Reachable.step
      (Reachable.step
        (Reachable.step
          (Reachable.step (Reachable.step Reachable.init applyMove_init_eq)
            (by decide : applyMove g1 0 3 = some g2))
          (by decide : applyMove g2 3 0 = some g3))
        (by decide : applyMove g3 0 4 = some g4))
      (by decide : applyMove g4 4 0 = some g5))
    (by decide : applyMove g5 0 5 = some g6)

/-- Board 0 filled in eight cells with no winning line (cell 8 still empty):
P0 P1 P0 / P0 P1 P1 / P1 P0 _ . -/
def drawnCells : Fin 9 → Mark := fun i =>
  [some Player.P0, some Player.P1, some Player.P0,
   some Player.P0, some Player.P1, some Player.P1,
   some Player.P1, some Player.P0, none].getD i.val none

/-- A state in which player '0' is about to fill the last cell of board 0
without making a line, producing a drawn (complete, winnerless) board. -/
def sDrawPre : GlobalState where
  boards := Function.update initState.boards 0
    { cells := drawnCells, complete := false, winner := none }
  nextBoardId := some 0
  currentPlayer := Player.P0
  outcome := Outcome.ongoing

/-! ### The claims -/

/-- C1 counterexample: on a state that differs from the initial one only in
already being won, `isValidMove(s, 0, 0)` returns `true` although the claimed
right-hand side (which requires `outcome = ongoing`) is false — the code's
`isValidMove` never consults the outcome. -/
theorem c1_counterexample :
    ¬ (isValidMove sWon 0 0 = true ↔
        (sWon.outcome = Outcome.ongoing ∧ (0 : Fin 9).val ≤ 8 ∧ (0 : Fin 9).val ≤ 8 ∧
          (sWon.boards 0).complete = false ∧ (sWon.boards 0).cells 0 = none ∧
          (sWon.nextBoardId = none ∨ sWon.nextBoardId = some 0))) := by
  decide

/-- C1 (amended): for every state and every (boardId, cellId), `isValidMove`
returns true iff boardId is 0–8, cellId is 0–8 (both enforced by the index
type), `boards[boardId].complete` is false, `boards[boardId].cells[cellId]` is
EMPTY, and `nextBoardId` is "any" or equal to boardId; the function does not
consult the game outcome (rejection of moves after the game has ended happens
at move application, not in `isValidMove`). -/
theorem c1_isValidMove_characterization (s : GlobalState) (b c : Fin 9) :
    isValidMove s b c = true ↔
      (b.val ≤ 8 ∧ c.val ≤ 8 ∧ (s.boards b).complete = false ∧
        (s.boards b).cells c = none ∧
        (s.nextBoardId = none ∨ s.nextBoardId = some b)) := by
  rw [isValidMove_iff]
  have hb : b.val ≤ 8 := Nat.lt_succ_iff.mp b.isLt
  have hc : c.val ≤ 8 := Nat.lt_succ_iff.mp c.isLt
  tauto

/-- C2: an invalid move, or any move once the game is no longer ongoing, is
rejected (`markCell` returns `INVALID_MOVE`, the framework drops moves after
gameover), and the embedding being purely functional, the rejected call
returns `none` and the prior state is untouched. -/
theorem c2_applyMove_rejects (s : GlobalState) (b c : Fin 9)
    (h : isValidMove s b c = false ∨ s.outcome ≠ Outcome.ongoing) :
    applyMove s b c = none := by
  unfold applyMove
  rcases h with h | h
  · by_cases ho : s.outcome = Outcome.ongoing
    · simp [ho, h]
    · simp [ho]
  · simp [h]

theorem c2_witness : applyMove sWon 0 0 = none :=
  c2_applyMove_rejects sWon 0 0 (Or.inr (by decide))

/-- C5: after a legal move at (boardId, cellId), `nextBoardId` is `cellId`
when board `cellId` is incomplete on the post-move boards, else "any" —
App.js line 63 reads `G.boards[cellId]` after the in-place mutation. -/
theorem c5_nextBoardId {s s' : GlobalState} {b c : Fin 9}
    (h : applyMove s b c = some s') :
    s'.nextBoardId = if (s'.boards c).complete = true then none else some c := by
  obtain ⟨ho, hv, hs'⟩ := applyMove_eq_some.mp h
  subst hs'
  rfl

theorem c5_witness :
    g1.nextBoardId = if (g1.boards 0).complete = true then none else some 0 :=
  c5_nextBoardId applyMove_init_eq

/-- C8: a legal move that leaves the game ongoing passes the turn to the
other player (`ctx.events.endTurn()`). -/
theorem c8_turn_alternation {s s' : GlobalState} {b c : Fin 9}
    (h : applyMove s b c = some s') (hon : s'.outcome = Outcome.ongoing) :
    s'.currentPlayer = otherPlayer s.currentPlayer := by
  obtain ⟨ho, hv, hs'⟩ := applyMove_eq_some.mp h
  subst hs'
  rw [markCellResult_currentPlayer, if_pos hon]

theorem c8_witness : g1.currentPlayer = otherPlayer initState.currentPlayer :=
  c8_turn_alternation applyMove_init_eq (by decide)

/-- C10: a legal move only touches board `boardId`: all other boards are
unchanged in every field, every other cell of board `boardId` keeps its mark,
and the played cell receives the mover's mark (it was EMPTY by legality, so
no mark is ever overwritten or erased). -/
theorem c10_frame {s s' : GlobalState} {b c : Fin 9}
    (h : applyMove s b c = some s') :
    (∀ i : Fin 9, i ≠ b → s'.boards i = s.boards i) ∧
    (∀ j : Fin 9, j ≠ c → (s'.boards b).cells j = (s.boards b).cells j) ∧
    (s'.boards b).cells c = some s.currentPlayer := by
  obtain ⟨ho, hv, hs'⟩ := applyMove_eq_some.mp h
  subst hs'
  refine ⟨fun i hib => ?_, fun j hjc => ?_, ?_⟩
  · rw [markCellResult_boards, Function.update_noteq hib]
  · rw [markCellResult_boards, Function.update_same, updatedBoard_cells,
      Function.update_noteq hjc]
  · rw [markCellResult_boards, Function.update_same, updatedBoard_cells,
      Function.update_same]

theorem c10_witness : g1.boards 1 = initState.boards 1 :=
  (c10_frame applyMove_init_eq).1 1 (by decide)

/-- C3: after a legal move the global outcome is won-by-the-mover when the
nine board winners contain a winning line over the eight standard triples
(formalised by the spec-level `hasWinningLine`, proved equivalent to the
code's `isVictory`), else draw when every board is complete, else ongoing;
the code's extra "all meta cells non-EMPTY" disjunct is absorbed using the
winner-implies-complete invariant of reachable states. -/
theorem c3_global_outcome {s s' : GlobalState} {b c : Fin 9}
    (hr : Reachable s) (h : applyMove s b c = some s') :
    s'.outcome =
      if hasWinningLine (boardsToCells s'.boards) then Outcome.won s.currentPlayer
      else if ∀ i : Fin 9, (s'.boards i).complete = true then Outcome.draw
      else Outcome.ongoing := by
  have hinv := reachable_winner_complete (Reachable.step hr h)
  obtain ⟨ho, hv, hs'⟩ := applyMove_eq_some.mp h
  have hout : s'.outcome = checkGlobalOutcome s'.boards s.currentPlayer := by
    rw [hs']
    rfl
  rw [hout]
  simp only [checkGlobalOutcome]
  rw [draw_cond_collapse hinv]
  by_cases hwin : isVictory (boardsToCells s'.boards) = true
  · rw [if_pos hwin, if_pos ((isVictory_iff _).mp hwin)]
  · rw [if_neg hwin, if_neg (fun hh => hwin ((isVictory_iff _).mpr hh))]
    unfold allBoardsComplete
    by_cases hall : ∀ i : Fin 9, (s'.boards i).complete = true
    · rw [if_pos (decide_eq_true hall), if_pos hall]
    · rw [if_neg (fun hd => hall (of_decide_eq_true hd)), if_neg hall]

theorem c3_witness :
    g1.outcome =
      if hasWinningLine (boardsToCells g1.boards) then Outcome.won initState.currentPlayer
      else if ∀ i : Fin 9, (g1.boards i).complete = true then Outcome.draw
      else Outcome.ongoing :=
  c3_global_outcome Reachable.init applyMove_init_eq

/-- C4: a legal move places the mover's mark, then: a winning line in the
updated cells makes the board complete with the mover as winner; a full
board without a line makes it complete with winner still EMPTY (the target
board's winner was EMPTY before the move, by the invariant of reachable
states plus legality); otherwise both flags are unchanged. -/
theorem c4_local_board_update {s s' : GlobalState} {b c : Fin 9}
    (hr : Reachable s) (h : applyMove s b c = some s') :
    (s'.boards b).cells = Function.update (s.boards b).cells c (some s.currentPlayer) ∧
    (isVictory (Function.update (s.boards b).cells c (some s.currentPlayer)) = true →
      (s'.boards b).complete = true ∧ (s'.boards b).winner = some s.currentPlayer) ∧
    (isVictory (Function.update (s.boards b).cells c (some s.currentPlayer)) = false →
      isComplete (Function.update (s.boards b).cells c (some s.currentPlayer)) = true →
      (s'.boards b).complete = true ∧ (s'.boards b).winner = none) ∧
    (isVictory (Function.update (s.boards b).cells c (some s.currentPlayer)) = false →
      isComplete (Function.update (s.boards b).cells c (some s.currentPlayer)) = false →
      (s'.boards b).complete = (s.boards b).complete ∧
      (s'.boards b).winner = (s.boards b).winner) := by
  obtain ⟨ho, hv, hs'⟩ := applyMove_eq_some.mp h
  have hwn : (s.boards b).winner = none := by
    by_contra hne
    have ht := reachable_winner_complete hr b hne
    have hc := (isValidMove_iff.mp hv).2.1
    rw [ht] at hc
    exact Bool.noConfusion hc
  subst hs'
  rw [markCellResult_boards, Function.update_same]
  simp only [updatedBoard]
  split_ifs with hvic hcomp
  · exact ⟨rfl, fun _ => ⟨rfl, rfl⟩,
      fun hf => Bool.noConfusion (hf.symm.trans hvic),
      fun hf => Bool.noConfusion (hf.symm.trans hvic)⟩
  · exact ⟨rfl, fun hvt => absurd hvt hvic,
      fun _ _ => ⟨rfl, hwn⟩,
      fun _ hcf => Bool.noConfusion (hcf.symm.trans hcomp)⟩
  · exact ⟨rfl, fun hvt => absurd hvt hvic,
      fun _ hct => absurd hct hcomp,
      fun _ _ => ⟨rfl, rfl⟩⟩

theorem c4_witness :
    (g1.boards 0).cells =
      Function.update (initState.boards 0).cells 0 (some initState.currentPlayer) :=
  (c4_local_board_update Reachable.init applyMove_init_eq).1

/-- C6: on every reachable state, the draw test `endGameIf` evaluates —
all meta cells non-EMPTY OR all boards complete — equals the single
condition that all nine boards are complete; the first disjunct is
redundant because a non-EMPTY winner forces completeness. -/
theorem c6_draw_disjunct_redundant {s : GlobalState} (hr : Reachable s) :
    (isComplete (boardsToCells s.boards) || allBoardsComplete s.boards) =
      allBoardsComplete s.boards :=
  draw_cond_collapse (reachable_winner_complete hr)

theorem c6_witness :
    (isComplete (boardsToCells initState.boards) || allBoardsComplete initState.boards) =
      allBoardsComplete initState.boards :=
  c6_draw_disjunct_redundant Reachable.init

/-- C7: on every reachable state a board with a non-EMPTY winner is complete;
and the converse does not follow from the update rule — a legal move can
produce a complete board whose winner is EMPTY (a drawn local board). -/
theorem c7_winner_implies_complete :
    (∀ s : GlobalState, Reachable s → ∀ i : Fin 9,
        (s.boards i).winner ≠ none → (s.boards i).complete = true) ∧
    (∃ s s' : GlobalState, ∃ b c : Fin 9, applyMove s b c = some s' ∧
        (s'.boards b).complete = true ∧ (s'.boards b).winner = none) := by
  refine ⟨fun s hr => reachable_winner_complete hr, ?_⟩
  exact ⟨sDrawPre, markCellResult sDrawPre 0 8, 0, 8, by decide, by decide, by decide⟩

theorem c7_witness :
    (g6.boards 0).winner ≠ none ∧ (g6.boards 0).complete = true := by
  refine ⟨by decide, ?_⟩
  exact c7_winner_implies_complete.1 g6 reach_g6 0 (by decide)

/-- C9: `enumerate` produces exactly the pairs accepted by `isValidMove`,
in ascending (boardId, cellId) lexicographic order (the nested loop order),
and being a pure function, two calls on the same state coincide. -/
theorem c9_enumerate_spec (s : GlobalState) :
    (∀ b c : Fin 9, ((b, c) ∈ enumerate s ↔ isValidMove s b c = true)) ∧
    (enumerate s).Pairwise
      (fun p q => p.1 < q.1 ∨ (p.1 = q.1 ∧ p.2 < q.2)) ∧
    enumerate s = enumerate s := by
  refine ⟨?_, ?_, rfl⟩
  · intro b c
    unfold enumerate
    simp only [List.mem_flatMap, List.mem_filterMap, List.mem_finRange, true_and,
      Option.ite_none_right_eq_some, Option.some.injEq, Prod.mk.injEq]
    constructor
    · rintro ⟨b0, c0, hv, hb, hc⟩
      rw [← hb, ← hc]
      exact hv
    · intro hv
      exact ⟨b, c, hv, rfl, rfl⟩
  · unfold enumerate
    apply List.pairwise_flatMap.mpr
    constructor
    · intro a _
      apply List.Pairwise.filterMap _ ?_ (List.pairwise_lt_finRange 9)
      intro c1 c2 hlt p1 hp1 p2 hp2
      rw [Option.mem_def, Option.ite_none_right_eq_some] at hp1 hp2
      obtain ⟨-, h1⟩ := hp1
      obtain ⟨-, h2⟩ := hp2
      cases Option.some.inj h1
      cases Option.some.inj h2
      exact Or.inr ⟨rfl, hlt⟩
    · refine List.Pairwise.imp ?_ (List.pairwise_lt_finRange 9)
      intro a1 a2 hlt x hx y hy
      rw [List.mem_filterMap] at hx hy
      obtain ⟨c1, -, hc1⟩ := hx
      obtain ⟨c2, -, hc2⟩ := hy
      rw [Option.ite_none_right_eq_some] at hc1 hc2
      obtain ⟨-, e1⟩ := hc1
      obtain ⟨-, e2⟩ := hc2
      cases Option.some.inj e1
      cases Option.some.inj e2
      exact Or.inl hlt
